import Mathlib

/-!
Verification of the NorthStar infinite-canvas viewport and tree-layout engine.

The definitions below are a shallow embedding of the camera / viewport code
(`2d_viewport_feature.md`) and of the query-plan tree layout
(`calculateTreeLayout`, `renderFromTopology`).  JavaScript numbers are
modelled as exact rationals (ℚ); JavaScript `Set` objects threaded through
recursive traversals become explicit `List String` accumulators, and the
mutable `positions` / width caches become association lists.
-/

namespace Northstar

/-! ## Constants (camera model and tree layout) -/

def MIN_ZOOM : ℚ := 1/10
def MAX_ZOOM : ℚ := 6
def ZOOM_STEP : ℚ := 11/10

def NODE_WIDTH : ℚ := 140
def NODE_HEIGHT : ℚ := 50
def HORIZONTAL_SPACING : ℚ := 30
def VERTICAL_SPACING : ℚ := 70

/-! ## Geometry and camera state -/

/-- Camera state: world coordinates of the viewport top-left plus zoom. -/
structure Camera where
  x : ℚ
  y : ℚ
  zoom : ℚ
deriving DecidableEq, Repr

/-- A bounding client rect of the canvas element (screen coordinates). -/
structure Rect where
  left : ℚ
  top : ℚ
  width : ℚ
  height : ℚ
deriving DecidableEq, Repr

/-- Content bounding-box size (`currentContentSize`). -/
structure Size where
  width : ℚ
  height : ℚ
deriving DecidableEq, Repr

/-- A point, used for both world-space and screen-space coordinates. -/
structure Point where
  x : ℚ
  y : ℚ
deriving DecidableEq, Repr

/-- Interaction state used by the pan gesture (`viewportState`). -/
structure ViewportState where
  isPanning : Bool
  startX : ℚ
  startY : ℚ
  startCameraX : ℚ
  startCameraY : ℚ
  pointerId : Option Nat
deriving DecidableEq, Repr

/-! ## Coordinate transforms -/

/-- `screenToWorld(screenX, screenY)`: world = camera + viewportLocal / zoom. -/
def screenToWorld (cam : Camera) (rect : Rect) (screenX screenY : ℚ) : Point :=
  let viewportX := screenX - rect.left
  let viewportY := screenY - rect.top
  ⟨cam.x + viewportX / cam.zoom, cam.y + viewportY / cam.zoom⟩

/-- `worldToScreen(worldX, worldY)`: inverse transform, re-adding the rect origin. -/
def worldToScreen (cam : Camera) (rect : Rect) (worldX worldY : ℚ) : Point :=
  ⟨(worldX - cam.x) * cam.zoom + rect.left, (worldY - cam.y) * cam.zoom + rect.top⟩

/-! ## Core camera mutations -/

/-- `clampCameraToBounds()`: restricts `camera.x,y` to the content region with
50% overscroll, allowing centering margins when the viewport exceeds the
content.  No-op when the content size is degenerate. -/
def clampCameraToBounds (content : Size) (rect : Rect) (cam : Camera) : Camera :=
  if content.width = 0 ∨ content.height = 0 then cam
  else
    let viewportWidth := rect.width / cam.zoom
    let viewportHeight := rect.height / cam.zoom
    let contentWidth := content.width
    let contentHeight := content.height
    let marginX := max 0 ((viewportWidth - contentWidth) / 2)
    let marginY := max 0 ((viewportHeight - contentHeight) / 2)
    let overscroll : ℚ := 1/2
    let minX := -contentWidth * overscroll - marginX
    let maxX := contentWidth * (1 + overscroll) - viewportWidth + marginX
    let minY := -contentHeight * overscroll - marginY
    let maxY := contentHeight * (1 + overscroll) - viewportHeight + marginY
    let x' := if maxX > minX then max minX (min maxX cam.x) else cam.x
    let y' := if maxY > minY then max minY (min maxY cam.y) else cam.y
    ⟨x', y', cam.zoom⟩

/-- Lines 141–155 of the wheel listener: compute the world point under the
cursor, clamp the new zoom, then recompute `camera.x,y` so the world point
stays under the cursor.  (The listener then calls `clampCameraToBounds`.) -/
def applyZoomWheel (rect : Rect) (clientX clientY deltaY : ℚ) (cam : Camera) : Camera :=
  let mouseX := clientX - rect.left
  let mouseY := clientY - rect.top
  let worldX := cam.x + mouseX / cam.zoom
  let worldY := cam.y + mouseY / cam.zoom
  let zoomDelta : ℚ := if deltaY > 0 then 99/100 else 101/100
  let zoom' := max MIN_ZOOM (min MAX_ZOOM (cam.zoom * zoomDelta))
  ⟨worldX - mouseX / zoom', worldY - mouseY / zoom', zoom'⟩

/-- The full `wheel` event listener: anchor-preserving zoom followed by the
bounds clamp. -/
def wheelHandler (content : Size) (rect : Rect) (clientX clientY deltaY : ℚ)
    (cam : Camera) : Camera :=
  clampCameraToBounds content rect (applyZoomWheel rect clientX clientY deltaY cam)

/-- `zoomToCenter(zoomDelta)`: zoom anchored at the viewport center. -/
def zoomToCenter (content : Size) (rect : Rect) (zoomDelta : ℚ) (cam : Camera) : Camera :=
  let centerX := rect.width / 2
  let centerY := rect.height / 2
  let worldX := cam.x + centerX / cam.zoom
  let worldY := cam.y + centerY / cam.zoom
  let zoom' := max MIN_ZOOM (min MAX_ZOOM (cam.zoom * zoomDelta))
  clampCameraToBounds content rect ⟨worldX - centerX / zoom', worldY - centerY / zoom', zoom'⟩

/-- `fitToView()`: scale (with 40px padding) to fit, capped at 100%, then
center the content.  Early-returns on degenerate content. -/
def fitToView (content : Size) (rect : Rect) (cam : Camera) : Camera :=
  if content.width = 0 ∨ content.height = 0 then cam
  else
    let padding : ℚ := 40
    let scaleX := (rect.width - padding * 2) / content.width
    let scaleY := (rect.height - padding * 2) / content.height
    let scale := min (min scaleX scaleY) 1
    let zoom' := max MIN_ZOOM (min MAX_ZOOM scale)
    ⟨-(rect.width / zoom' - content.width) / 2,
     -(rect.height / zoom' - content.height) / 2,
     zoom'⟩

/-- `panBy(dx, dy)`: pan amount inversely scaled by zoom, then clamp. -/
def panBy (content : Size) (rect : Rect) (dx dy : ℚ) (cam : Camera) : Camera :=
  clampCameraToBounds content rect ⟨cam.x - dx / cam.zoom, cam.y - dy / cam.zoom, cam.zoom⟩

/-- The `pointermove` listener: during an active pan with a matching pointer
id, move the camera opposite to the drag, scaled by zoom, then clamp. -/
def pointermoveHandler (content : Size) (rect : Rect) (st : ViewportState)
    (clientX clientY : ℚ) (pointerId : Nat) (cam : Camera) : Camera :=
  if st.isPanning = true ∧ st.pointerId = some pointerId then
    let dx := clientX - st.startX
    let dy := clientY - st.startY
    clampCameraToBounds content rect
      ⟨st.startCameraX - dx / cam.zoom, st.startCameraY - dy / cam.zoom, cam.zoom⟩
  else cam

/-- The minimap `click` listener: map the click back to world coordinates via
the minimap scale, center the camera there, then clamp. -/
def minimapClick (content : Size) (minimapRect canvasRect : Rect)
    (clientX clientY : ℚ) (cam : Camera) : Camera :=
  let scale := min ((minimapRect.width - 16) / content.width)
                   ((minimapRect.height - 16) / content.height)
  let clickX := (clientX - minimapRect.left - 8) / scale
  let clickY := (clientY - minimapRect.top - 8) / scale
  clampCameraToBounds content canvasRect
    ⟨clickX - (canvasRect.width / cam.zoom) / 2,
     clickY - (canvasRect.height / cam.zoom) / 2,
     cam.zoom⟩

/-! ## Tree layout (query plan visualization)

The JavaScript builds a `graph` object keyed by node id, then runs two
depth-first passes (`calcSubtreeWidth`, `assignPositions`), each guarded by a
mutable visited `Set`.  Both passes are embedded below with the visited set,
the `_width` cache and the `positions` object threaded explicitly, and with a
fuel argument that makes the recursion structurally total; the fuel
`g.length + 1` used by `calculateTreeLayout` is proved sufficient. -/

/-- One plan operator as stored in the `graph` object. -/
structure PNode where
  id : String
  name : String
  children : List String
deriving DecidableEq, Repr

/-- The `graph` object: all plan nodes of one loaded profile. -/
abbrev Graph := List PNode

/-- One raw record of `topology.nodes`. -/
structure TopoNode where
  id : String
  name : String
  children : List String
deriving DecidableEq, Repr

/-- The parsed `Topology` structure. -/
structure Topology where
  rootId : String
  nodes : List TopoNode
deriving DecidableEq, Repr

/-- `graph[i]` lookup.  `graph[node.id] = ...` assignments make the last
record with a given id win, hence the search over the reversed list. -/
def lookup (g : Graph) (i : String) : Option PNode :=
  g.reverse.find? (fun n => n.id == i)

/-- The `_width` cache (`node._width = ...` assignments). -/
abbrev WMap := List (String × ℚ)

def wInsert (wm : WMap) (i : String) (w : ℚ) : WMap := (i, w) :: wm

def wLookup (wm : WMap) (i : String) : Option ℚ :=
  (wm.find? (fun p => p.1 == i)).map Prod.snd

/-- JavaScript `a || b` on an optionally-set numeric field: `undefined` and
`0` are both falsy. -/
def jsOr (o : Option ℚ) (d : ℚ) : ℚ :=
  match o with
  | some w => if w = 0 then d else w
  | none => d

mutual

/-- First pass, `calcSubtreeWidth(node, visited)`: returns the subtree width,
the updated `_width` cache and the updated visited set.  `none` means the
fuel ran out (proved unreachable for the fuel used by `calculateTreeLayout`). -/
def calcSubtreeWidth (fuel : Nat) (g : Graph) (node : PNode)
    (visited : List String) (wm : WMap) : Option (ℚ × WMap × List String) :=
  match fuel with
  | 0 => none
  | f + 1 =>
    if node.id ∈ visited then
      some (NODE_WIDTH, wm, visited)  -- prevent cycles
    else
      let visited1 := node.id :: visited
      if node.children.isEmpty then
        some (NODE_WIDTH, wInsert wm node.id NODE_WIDTH, visited1)
      else
        match calcChildrenWidth f g node.children visited1 wm with
        | none => none
        | some (totalWidth, wm1, visited2) =>
          let w := max NODE_WIDTH totalWidth
          some (w, wInsert wm1 node.id w, visited2)

/-- The `node.children.forEach` loop of the first pass: dangling child ids
are skipped; `HORIZONTAL_SPACING` is added after every resolved child whose
index is not the last one. -/
def calcChildrenWidth (fuel : Nat) (g : Graph) (ids : List String)
    (visited : List String) (wm : WMap) : Option (ℚ × WMap × List String) :=
  match ids with
  | [] => some (0, wm, visited)
  | childId :: rest =>
    match lookup g childId with
    | none => calcChildrenWidth fuel g rest visited wm
    | some child =>
      match calcSubtreeWidth fuel g child visited wm with
      | none => none
      | some (w, wm1, visited1) =>
        let sp : ℚ := if rest.isEmpty then 0 else HORIZONTAL_SPACING
        match calcChildrenWidth fuel g rest visited1 wm1 with
        | none => none
        | some (totalWidth, wm2, visited2) =>
          some (w + sp + totalWidth, wm2, visited2)

end

mutual

/-- Second pass, `assignPositions(node, x, y, visited)`: returns the updated
`positions` map, `maxY` and visited set. -/
def assignPositions (fuel : Nat) (g : Graph) (wm : WMap) (node : PNode)
    (x y : ℚ) (visited : List String) (pos : List (String × ℚ × ℚ)) (maxY : ℚ) :
    Option (List (String × ℚ × ℚ) × ℚ × List String) :=
  match fuel with
  | 0 => none
  | f + 1 =>
    if node.id ∈ visited then some (pos, maxY, visited)
    else
      let visited1 := node.id :: visited
      -- node._width: always set by the first pass for nodes reached here
      let ndWidth := (wLookup wm node.id).getD NODE_WIDTH
      let pos1 := (node.id, x + (ndWidth - NODE_WIDTH) / 2, y) :: pos
      let maxY1 := max maxY y
      if node.children.isEmpty then some (pos1, maxY1, visited1)
      else assignChildren f g wm node.children x (y + NODE_HEIGHT + VERTICAL_SPACING)
             visited1 pos1 maxY1

/-- The children loop of the second pass: each resolved child is positioned
at the running `childX`, which then advances by `(child._width || NODE_WIDTH)
+ HORIZONTAL_SPACING`. -/
def assignChildren (fuel : Nat) (g : Graph) (wm : WMap) (ids : List String)
    (childX y : ℚ) (visited : List String) (pos : List (String × ℚ × ℚ)) (maxY : ℚ) :
    Option (List (String × ℚ × ℚ) × ℚ × List String) :=
  match ids with
  | [] => some (pos, maxY, visited)
  | childId :: rest =>
    match lookup g childId with
    | none => assignChildren fuel g wm rest childX y visited pos maxY
    | some child =>
      match assignPositions fuel g wm child childX y visited pos maxY with
      | none => none
      | some (pos1, maxY1, visited1) =>
        let cw := jsOr (wLookup wm child.id) NODE_WIDTH
        assignChildren fuel g wm rest (childX + cw + HORIZONTAL_SPACING) y
          visited1 pos1 maxY1

end

/-- The layout result returned by `calculateTreeLayout`. -/
structure Layout where
  positions : List (String × ℚ × ℚ)
  width : ℚ
  height : ℚ
  root : PNode
deriving DecidableEq, Repr

/-- `calculateTreeLayout(root, graph)`: both passes from the root with fresh
visited sets; `width = root._width`, `height = maxY + NODE_HEIGHT`. -/
def calculateTreeLayout (root : PNode) (g : Graph) : Option Layout :=
  let fuel := g.length + 1
  match calcSubtreeWidth fuel g root [] [] with
  | none => none
  | some (_, wm, _) =>
    match assignPositions fuel g wm root 0 0 [] [] 0 with
    | none => none
    | some (pos, maxY, _) =>
      some ⟨pos, (wLookup wm root.id).getD NODE_WIDTH, maxY + NODE_HEIGHT, root⟩

/-- Outcome of `renderFromTopology` at the UI boundary. -/
inductive RenderResult where
  | rootNotFound                 -- alert "Could not find root node in topology"
  | emptyGraph                   -- "No operators found to visualize"
  | rendered (layout : Layout)
deriving DecidableEq, Repr

/-- `renderFromTopology(topology)`: build the graph object, resolve the root
(alerting `rootNotFound` when absent), lay out the tree, and render it;
`renderTreeWithSVG` shows the empty-graph message when `positions` is empty.
The `planNodeId`/`properties` fields are rendering pass-through and are not
modelled.  The fuel-exhaustion branch is unreachable (see the cycle-safety
theorem) and conservatively maps to the empty-graph message. -/
def renderFromTopology (t : Topology) : RenderResult :=
  let g : Graph := t.nodes.map (fun n => ⟨n.id, n.name, n.children⟩)
  match lookup g t.rootId with
  | none => RenderResult.rootNotFound
  | some root =>
    match calculateTreeLayout root g with
    | none => RenderResult.emptyGraph
    | some l =>
      if l.positions.isEmpty then RenderResult.emptyGraph
      else RenderResult.rendered l

/-- Association lookup into a `positions` map. -/
def posLookup (pos : List (String × ℚ × ℚ)) (i : String) : Option (ℚ × ℚ) :=
  (pos.find? (fun p => p.1 == i)).map Prod.snd

/-! ## Helper lemmas -/

/-- The bounds clamp never touches the zoom component. -/
lemma clampCameraToBounds_zoom (content : Size) (rect : Rect) (cam : Camera) :
    (clampCameraToBounds content rect cam).zoom = cam.zoom := by
  unfold clampCameraToBounds
  split <;> rfl

/-- The clamped zoom update always lands inside `[MIN_ZOOM, MAX_ZOOM]`. -/
lemma zoom_clamp_mem (z : ℚ) :
    MIN_ZOOM ≤ max MIN_ZOOM (min MAX_ZOOM z) ∧ max MIN_ZOOM (min MAX_ZOOM z) ≤ MAX_ZOOM := by
  refine ⟨le_max_left _ _, max_le ?_ (min_le_left _ _)⟩
  unfold MIN_ZOOM MAX_ZOOM
  norm_num

/-! ## Termination and single-positioning machinery for the layout passes -/

/-- The ids a `positions` map has assigned. -/
def posKeys (pos : List (String × ℚ × ℚ)) : List String := pos.map Prod.fst

/-- All node ids present in the graph. -/
def idSet (g : Graph) : Finset String := (g.map PNode.id).toFinset

/-- How many graph ids are not yet in the visited set: the termination
measure of both traversal passes. -/
def unvisited (g : Graph) (v : List String) : Nat := (idSet g \ v.toFinset).card

lemma lookup_mem {g : Graph} {i : String} {nd : PNode} (h : lookup g i = some nd) :
    nd ∈ g := by
  unfold lookup at h
  exact List.mem_reverse.mp (List.mem_of_find?_eq_some h)

lemma unvisited_cons_lt {g : Graph} {v : List String} {nd : PNode}
    (hnd : nd ∈ g) (hv : nd.id ∉ v) : unvisited g (nd.id :: v) < unvisited g v := by
  unfold unvisited
  have hmem : nd.id ∈ idSet g \ v.toFinset := by
    rw [Finset.mem_sdiff]
    refine ⟨?_, ?_⟩
    · unfold idSet
      rw [List.mem_toFinset]
      exact List.mem_map_of_mem _ hnd
    · rw [List.mem_toFinset]
      exact hv
  rw [List.toFinset_cons, Finset.sdiff_insert]
  exact Finset.card_erase_lt_of_mem hmem

lemma unvisited_mono {g : Graph} {v v' : List String} (h : v ⊆ v') :
    unvisited g v' ≤ unvisited g v := by
  apply Finset.card_le_card
  intro x hx
  rw [Finset.mem_sdiff] at hx ⊢
  refine ⟨hx.1, fun hc => hx.2 ?_⟩
  rw [List.mem_toFinset] at hc ⊢
  exact h hc

lemma unvisited_nil_le (g : Graph) : unvisited g [] ≤ g.length := by
  unfold unvisited
  rw [List.toFinset_nil, Finset.sdiff_empty]
  unfold idSet
  exact le_trans (List.toFinset_card_le _) (le_of_eq (List.length_map _ _))

/-- The width pass only ever grows the visited set. -/
lemma calcW_subset (g : Graph) : ∀ fuel : Nat,
    (∀ node v wm r, calcSubtreeWidth fuel g node v wm = some r → v ⊆ r.2.2)
    ∧ (∀ ids v wm r, calcChildrenWidth fuel g ids v wm = some r → v ⊆ r.2.2) := by
  intro fuel
  induction fuel with
  | zero =>
    constructor
    · intro node v wm r h
      simp [calcSubtreeWidth] at h
    · intro ids
      induction ids with
      | nil =>
        intro v wm r h
        simp only [calcChildrenWidth, Option.some.injEq] at h
        rw [← h]
        exact fun x hx => hx
      | cons c rest ihrest =>
        intro v wm r h
        simp only [calcChildrenWidth] at h
        split at h
        · exact ihrest v wm r h
        · split at h
          · exact absurd h (by simp)
          next w wm1 v1 heq => simp [calcSubtreeWidth] at heq
  | succ f ih =>
    obtain ⟨ihn, ihk⟩ := ih
    have hnode : ∀ node v wm r, calcSubtreeWidth (f + 1) g node v wm = some r → v ⊆ r.2.2 := by
      intro node v wm r h
      simp only [calcSubtreeWidth] at h
      split at h
      · cases h
        exact fun x hx => hx
      next hnin =>
        split at h
        · cases h
          exact fun x hx => List.mem_cons_of_mem _ hx
        · split at h
          · exact absurd h (by simp)
          next tw wm1 v2 heq =>
            cases h
            have hsub := ihk node.children (node.id :: v) wm (tw, wm1, v2) heq
            exact fun x hx => hsub (List.mem_cons_of_mem _ hx)
    refine ⟨hnode, ?_⟩
    intro ids
    induction ids with
    | nil =>
      intro v wm r h
      simp only [calcChildrenWidth, Option.some.injEq] at h
      rw [← h]
      exact fun x hx => hx
    | cons c rest ihrest =>
      intro v wm r h
      simp only [calcChildrenWidth] at h
      split at h
      · exact ihrest v wm r h
      · split at h
        · exact absurd h (by simp)
        next w wm1 v1 heqn =>
          split at h
          · exact absurd h (by simp)
          next tw wm2 v2 heqk =>
            cases h
            have h1 := hnode _ v wm (w, wm1, v1) heqn
            have h2 := ihrest v1 wm1 (tw, wm2, v2) heqk
            exact fun x hx => h2 (h1 hx)

/-- With fuel exceeding the number of unvisited graph ids, the width pass
cannot run out of fuel. -/
lemma calcW_some (g : Graph) : ∀ fuel : Nat,
    (∀ node v wm, node ∈ g → unvisited g v < fuel →
        (calcSubtreeWidth fuel g node v wm).isSome = true)
    ∧ (∀ ids v wm, unvisited g v < fuel →
        (calcChildrenWidth fuel g ids v wm).isSome = true) := by
  intro fuel
  induction fuel with
  | zero =>
    constructor
    · intro node v wm _ hlt
      exact absurd hlt (Nat.not_lt_zero _)
    · intro ids v wm hlt
      exact absurd hlt (Nat.not_lt_zero _)
  | succ f ih =>
    obtain ⟨ihn, ihk⟩ := ih
    have hnode : ∀ node v wm, node ∈ g → unvisited g v < f + 1 →
        (calcSubtreeWidth (f + 1) g node v wm).isSome = true := by
      intro node v wm hmem hlt
      simp only [calcSubtreeWidth]
      split
      · simp
      next hnin =>
        split
        · simp
        · have hlt2 : unvisited g (node.id :: v) < f := by
            have := unvisited_cons_lt hmem hnin
            omega
          have hk := ihk node.children (node.id :: v) wm hlt2
          cases hkeq : calcChildrenWidth f g node.children (node.id :: v) wm with
          | none =>
            rw [hkeq] at hk
            simp at hk
          | some rk =>
            obtain ⟨tw, wm1, v2⟩ := rk
            simp
    refine ⟨hnode, ?_⟩
    intro ids
    induction ids with
    | nil =>
      intro v wm hlt
      simp [calcChildrenWidth]
    | cons c rest ihrest =>
      intro v wm hlt
      simp only [calcChildrenWidth]
      cases hl : lookup g c with
      | none => exact ihrest v wm hlt
      | some child =>
        have hchild : child ∈ g := lookup_mem hl
        have hn := hnode child v wm hchild hlt
        cases hneq : calcSubtreeWidth (f + 1) g child v wm with
        | none =>
          rw [hneq] at hn
          simp at hn
        | some rn =>
          obtain ⟨w, wm1, v1⟩ := rn
          have hsub : v ⊆ v1 := (calcW_subset g (f + 1)).1 child v wm (w, wm1, v1) hneq
          have hlt3 : unvisited g v1 < f + 1 := lt_of_le_of_lt (unvisited_mono hsub) hlt
          have hr := ihrest v1 wm1 hlt3
          cases hreq : calcChildrenWidth (f + 1) g rest v1 wm1 with
          | none =>
            rw [hreq] at hr
            simp at hr
          | some rr =>
            obtain ⟨tw, wm2, v2⟩ := rr
            simp [hneq, hreq]

/-- The position pass grows the visited set, and — given that every already
assigned id is visited and assigned once — keeps every assigned id visited
and assigned exactly once. -/
lemma assignPos_keys (g : Graph) (wm : WMap) : ∀ fuel : Nat,
    (∀ node x y v pos maxY r, assignPositions fuel g wm node x y v pos maxY = some r →
        v ⊆ r.2.2 ∧ (posKeys pos ⊆ v → (posKeys pos).Nodup →
          posKeys r.1 ⊆ r.2.2 ∧ (posKeys r.1).Nodup))
    ∧ (∀ ids cx y v pos maxY r, assignChildren fuel g wm ids cx y v pos maxY = some r →
        v ⊆ r.2.2 ∧ (posKeys pos ⊆ v → (posKeys pos).Nodup →
          posKeys r.1 ⊆ r.2.2 ∧ (posKeys r.1).Nodup)) := by
  intro fuel
  induction fuel with
  | zero =>
    constructor
    · intro node x y v pos maxY r h
      simp [assignPositions] at h
    · intro ids
      induction ids with
      | nil =>
        intro cx y v pos maxY r h
        simp only [assignChildren, Option.some.injEq] at h
        rw [← h]
        exact ⟨fun x hx => hx, fun hk hn => ⟨hk, hn⟩⟩
      | cons c rest ihrest =>
        intro cx y v pos maxY r h
        simp only [assignChildren] at h
        split at h
        · exact ihrest cx y v pos maxY r h
        · split at h
          · exact absurd h (by simp)
          next heq => simp [assignPositions] at heq
  | succ f ih =>
    obtain ⟨ihn, ihk⟩ := ih
    have hnode : ∀ node x y v pos maxY r,
        assignPositions (f + 1) g wm node x y v pos maxY = some r →
        v ⊆ r.2.2 ∧ (posKeys pos ⊆ v → (posKeys pos).Nodup →
          posKeys r.1 ⊆ r.2.2 ∧ (posKeys r.1).Nodup) := by
      intro node x y v pos maxY r h
      simp only [assignPositions] at h
      split at h
      · cases h
        exact ⟨fun x hx => hx, fun hk hn => ⟨hk, hn⟩⟩
      next hnin =>
        have hkeys1 : ∀ (hk : posKeys pos ⊆ v), posKeys ((node.id, x +
            ((wLookup wm node.id).getD NODE_WIDTH - NODE_WIDTH) / 2, y) :: pos)
            ⊆ node.id :: v := by
          intro hk p hp
          simp only [posKeys, List.map_cons, List.mem_cons] at hp
          rcases hp with rfl | hp
          · exact List.mem_cons_self _ _
          · exact List.mem_cons_of_mem _ (hk hp)
        have hnodup1 : ∀ (hk : posKeys pos ⊆ v), (posKeys pos).Nodup →
            (posKeys ((node.id, x + ((wLookup wm node.id).getD NODE_WIDTH - NODE_WIDTH) / 2,
              y) :: pos)).Nodup := by
          intro hk hn
          simp only [posKeys, List.map_cons]
          exact List.nodup_cons.mpr ⟨fun hmem => hnin (hk hmem), hn⟩
        split at h
        · cases h
          exact ⟨fun x hx => List.mem_cons_of_mem _ hx,
            fun hk hn => ⟨hkeys1 hk, hnodup1 hk hn⟩⟩
        · have hres := ihk node.children x (y + NODE_HEIGHT + VERTICAL_SPACING)
            (node.id :: v) ((node.id, x + ((wLookup wm node.id).getD NODE_WIDTH
              - NODE_WIDTH) / 2, y) :: pos) (max maxY y) r h
          refine ⟨fun z hz => hres.1 (List.mem_cons_of_mem _ hz), fun hk hn => ?_⟩
          exact hres.2 (hkeys1 hk) (hnodup1 hk hn)
    refine ⟨hnode, ?_⟩
    intro ids
    induction ids with
    | nil =>
      intro cx y v pos maxY r h
      simp only [assignChildren, Option.some.injEq] at h
      rw [← h]
      exact ⟨fun x hx => hx, fun hk hn => ⟨hk, hn⟩⟩
    | cons c rest ihrest =>
      intro cx y v pos maxY r h
      simp only [assignChildren] at h
      split at h
      · exact ihrest cx y v pos maxY r h
      · split at h
        · exact absurd h (by simp)
        next pos1 maxY1 v1 heqn =>
          have h1 := hnode _ cx y v pos maxY (pos1, maxY1, v1) heqn
          have h2 := ihrest _ y v1 pos1 maxY1 r h
          refine ⟨fun z hz => h2.1 (h1.1 hz), fun hk hn => ?_⟩
          have hmid := h1.2 hk hn
          exact h2.2 hmid.1 hmid.2

/-- With fuel exceeding the number of unvisited graph ids, the position pass
cannot run out of fuel. -/
lemma assignPos_some (g : Graph) (wm : WMap) : ∀ fuel : Nat,
    (∀ node x y v pos maxY, node ∈ g → unvisited g v < fuel →
        (assignPositions fuel g wm node x y v pos maxY).isSome = true)
    ∧ (∀ ids cx y v pos maxY, unvisited g v < fuel →
        (assignChildren fuel g wm ids cx y v pos maxY).isSome = true) := by
  intro fuel
  induction fuel with
  | zero =>
    constructor
    · intro node x y v pos maxY _ hlt
      exact absurd hlt (Nat.not_lt_zero _)
    · intro ids cx y v pos maxY hlt
      exact absurd hlt (Nat.not_lt_zero _)
  | succ f ih =>
    obtain ⟨ihn, ihk⟩ := ih
    have hnode : ∀ node x y v pos maxY, node ∈ g → unvisited g v < f + 1 →
        (assignPositions (f + 1) g wm node x y v pos maxY).isSome = true := by
      intro node x y v pos maxY hmem hlt
      simp only [assignPositions]
      split
      · simp
      next hnin =>
        split
        · simp
        · have hlt2 : unvisited g (node.id :: v) < f := by
            have := unvisited_cons_lt hmem hnin
            omega
          exact ihk node.children x (y + NODE_HEIGHT + VERTICAL_SPACING) (node.id :: v)
            _ (max maxY y) hlt2
    refine ⟨hnode, ?_⟩
    intro ids
    induction ids with
    | nil =>
      intro cx y v pos maxY hlt
      simp [assignChildren]
    | cons c rest ihrest =>
      intro cx y v pos maxY hlt
      simp only [assignChildren]
      cases hl : lookup g c with
      | none => exact ihrest cx y v pos maxY hlt
      | some child =>
        have hchild : child ∈ g := lookup_mem hl
        have hn := hnode child cx y v pos maxY hchild hlt
        cases hneq : assignPositions (f + 1) g wm child cx y v pos maxY with
        | none =>
          rw [hneq] at hn
          simp at hn
        | some rn =>
          obtain ⟨pos1, maxY1, v1⟩ := rn
          have hsub : v ⊆ v1 :=
            ((assignPos_keys g wm (f + 1)).1 child cx y v pos maxY (pos1, maxY1, v1) hneq).1
          have hlt3 : unvisited g v1 < f + 1 := lt_of_le_of_lt (unvisited_mono hsub) hlt
          simp only [hneq]
          exact ihrest _ y v1 pos1 maxY1 hlt3

/-! ## Claims -/

/-- C1 (zoom-to-cursor anchor invariance): for every camera with zoom in
`[MIN_ZOOM, MAX_ZOOM]`, every anchor screen point and every wheel delta, the
anchor-preserving zoom step of the wheel handler (world point under the
anchor computed before the zoom change, new zoom clamped, `camera.x,y`
recomputed) leaves `screenToWorld(anchor)` exactly unchanged. -/
theorem zoom_anchor_invariance (cam : Camera) (rect : Rect) (ax ay dY : ℚ)
    (_h1 : MIN_ZOOM ≤ cam.zoom) (_h2 : cam.zoom ≤ MAX_ZOOM) :
    screenToWorld (applyZoomWheel rect ax ay dY cam) rect ax ay
      = screenToWorld cam rect ax ay := by
  simp only [screenToWorld, applyZoomWheel, Point.mk.injEq]
  constructor <;> ring

/-- Witness for C1 at a concrete camera, rect, anchor and wheel delta. -/
theorem zoom_anchor_invariance_witness :
    screenToWorld (applyZoomWheel ⟨0, 0, 100, 100⟩ 10 10 1 ⟨0, 0, 1⟩) ⟨0, 0, 100, 100⟩ 10 10
      = screenToWorld ⟨0, 0, 1⟩ ⟨0, 0, 100, 100⟩ 10 10 :=
  zoom_anchor_invariance ⟨0, 0, 1⟩ ⟨0, 0, 100, 100⟩ 10 10 1
    (by with_unfolding_all decide) (by with_unfolding_all decide)

/-- C8 (pan formula): a pan-drag move and `panBy` both subtract
`(dx/zoom, dy/zoom)` from the camera position recorded at drag start before
the bounds clamp; in particular a drag from screen `(100,100)` to `(150,130)`
at `zoom = 2`, with the clamp not binding, shifts the camera by `(-25,-15)`. -/
theorem pan_formula (content : Size) (rect : Rect) (st : ViewportState)
    (cX cY : ℚ) (pid : Nat) (dx dy : ℚ) (cam : Camera)
    (hpan : st.isPanning = true) (hpid : st.pointerId = some pid) :
    pointermoveHandler content rect st cX cY pid cam
      = clampCameraToBounds content rect
          ⟨st.startCameraX - (cX - st.startX) / cam.zoom,
           st.startCameraY - (cY - st.startY) / cam.zoom, cam.zoom⟩
    ∧ panBy content rect dx dy cam
      = clampCameraToBounds content rect
          ⟨cam.x - dx / cam.zoom, cam.y - dy / cam.zoom, cam.zoom⟩
    ∧ (cam.zoom = 2 → cX = 150 → cY = 130 → st.startX = 100 → st.startY = 100 →
        clampCameraToBounds content rect ⟨st.startCameraX - 25, st.startCameraY - 15, 2⟩
          = ⟨st.startCameraX - 25, st.startCameraY - 15, 2⟩ →
        pointermoveHandler content rect st cX cY pid cam
          = ⟨st.startCameraX - 25, st.startCameraY - 15, 2⟩) := by
  have hmove : pointermoveHandler content rect st cX cY pid cam
      = clampCameraToBounds content rect
          ⟨st.startCameraX - (cX - st.startX) / cam.zoom,
           st.startCameraY - (cY - st.startY) / cam.zoom, cam.zoom⟩ := by
    unfold pointermoveHandler
    rw [if_pos ⟨hpan, hpid⟩]
  refine ⟨hmove, rfl, ?_⟩
  intro hz hcx hcy hsx hsy hclamp
  rw [hmove, hz, hcx, hcy, hsx, hsy]
  norm_num
  exact hclamp

/-- Witness for C8: concrete drag with degenerate content (clamp a no-op). -/
theorem pan_formula_witness :
    pointermoveHandler ⟨0, 0⟩ ⟨0, 0, 100, 100⟩ ⟨true, 100, 100, 7, 9, some 1⟩ 150 130 1 ⟨3, 4, 2⟩
      = ⟨7 - 25, 9 - 15, 2⟩ :=
  (pan_formula ⟨0, 0⟩ ⟨0, 0, 100, 100⟩ ⟨true, 100, 100, 7, 9, some 1⟩ 150 130 1 0 0 ⟨3, 4, 2⟩
    rfl rfl).2.2 rfl rfl rfl rfl rfl (by with_unfolding_all decide)

/-- C9 (saturated zoom is a no-op): at `zoom = MAX_ZOOM` a zoom-in wheel tick
(`deltaY < 0`), and at `zoom = MIN_ZOOM` a zoom-out tick (`deltaY > 0`),
leave the whole camera state unchanged, provided the camera already satisfies
the pan bounds. -/
theorem saturated_zoom_noop (content : Size) (rect : Rect) (cX cY dY : ℚ) (cam : Camera) :
    (cam.zoom = MAX_ZOOM → dY < 0 → clampCameraToBounds content rect cam = cam →
        wheelHandler content rect cX cY dY cam = cam)
    ∧ (cam.zoom = MIN_ZOOM → 0 < dY → clampCameraToBounds content rect cam = cam →
        wheelHandler content rect cX cY dY cam = cam) := by
  obtain ⟨x, y, z⟩ := cam
  constructor
  · intro hz hd hclamp
    simp only [Camera.mk.injEq] at hz ⊢
    have hdneg : ¬ dY > 0 := by linarith
    have hstep : applyZoomWheel rect cX cY dY ⟨x, y, z⟩ = ⟨x, y, z⟩ := by
      simp only [applyZoomWheel, if_neg hdneg]
      subst hz
      have h6 : max MIN_ZOOM (min MAX_ZOOM (MAX_ZOOM * (101 / 100))) = MAX_ZOOM := by
        unfold MIN_ZOOM MAX_ZOOM
        norm_num [min_def, max_def]
      simp only [h6, Camera.mk.injEq]
      refine ⟨by ring, by ring, trivial⟩
    unfold wheelHandler
    rw [hstep, hclamp]
  · intro hz hd hclamp
    have hdpos : dY > 0 := hd
    have hstep : applyZoomWheel rect cX cY dY ⟨x, y, z⟩ = ⟨x, y, z⟩ := by
      simp only [applyZoomWheel, if_pos hdpos]
      simp only [Camera.mk.injEq] at hz
      subst hz
      have h01 : max MIN_ZOOM (min MAX_ZOOM (MIN_ZOOM * (99 / 100))) = MIN_ZOOM := by
        unfold MIN_ZOOM MAX_ZOOM
        norm_num [min_def, max_def]
      simp only [h01, Camera.mk.injEq]
      refine ⟨by ring, by ring, trivial⟩
    unfold wheelHandler
    rw [hstep, hclamp]

/-- Witness for C9 at both saturation points (degenerate content makes the
bounds clamp the identity). -/
theorem saturated_zoom_noop_witness :
    wheelHandler ⟨0, 0⟩ ⟨0, 0, 100, 100⟩ 10 10 (-1) ⟨0, 0, 6⟩ = ⟨0, 0, 6⟩
    ∧ wheelHandler ⟨0, 0⟩ ⟨0, 0, 100, 100⟩ 10 10 1 ⟨0, 0, 1/10⟩ = ⟨0, 0, 1/10⟩ :=
  ⟨(saturated_zoom_noop ⟨0, 0⟩ ⟨0, 0, 100, 100⟩ 10 10 (-1) ⟨0, 0, 6⟩).1
      (by with_unfolding_all decide) (by with_unfolding_all decide)
      (by with_unfolding_all decide),
   (saturated_zoom_noop ⟨0, 0⟩ ⟨0, 0, 100, 100⟩ 10 10 1 ⟨0, 0, 1/10⟩).2
      (by with_unfolding_all decide) (by with_unfolding_all decide)
      (by with_unfolding_all decide)⟩

/-- C2 counterexample: for content `10000×10000` in a `100×100` viewport, the
`MIN_ZOOM` clamp forces `zoom = 0.1`, and the content corner `(0,0)` is then
mapped `450px` left of the viewport's left edge — the transformed content box
does not lie within the viewport, contradicting the claim as stated. -/
theorem fit_to_view_containment_cex :
    (worldToScreen (fitToView ⟨10000, 10000⟩ ⟨0, 0, 100, 100⟩ ⟨0, 0, 1⟩)
        ⟨0, 0, 100, 100⟩ 0 0).x < (0 : ℚ) := by
  with_unfolding_all decide

/-- C2 (amended fit-to-view containment): for positive content and viewport
sizes, `fitToView` always yields `zoom ≤ 1`; and whenever the padded fit
scale `min((vw-80)/cw, (vh-80)/ch, 1)` is at least `MIN_ZOOM` (so the lower
zoom clamp does not bind), every point of the content box `[0,cw]×[0,ch]`
maps through `worldToScreen` into the viewport rectangle. -/
theorem fit_to_view_containment (cam : Camera) (content : Size) (rect : Rect)
    (hw : 0 < content.width) (hh : 0 < content.height) :
    (fitToView content rect cam).zoom ≤ 1
    ∧ (MIN_ZOOM ≤ min (min ((rect.width - 40 * 2) / content.width)
          ((rect.height - 40 * 2) / content.height)) 1 →
        ∀ wx wy, 0 ≤ wx → wx ≤ content.width → 0 ≤ wy → wy ≤ content.height →
          rect.left ≤ (worldToScreen (fitToView content rect cam) rect wx wy).x
          ∧ (worldToScreen (fitToView content rect cam) rect wx wy).x ≤ rect.left + rect.width
          ∧ rect.top ≤ (worldToScreen (fitToView content rect cam) rect wx wy).y
          ∧ (worldToScreen (fitToView content rect cam) rect wx wy).y ≤ rect.top + rect.height) := by
  have hcond : ¬ (content.width = 0 ∨ content.height = 0) := by
    push_neg
    exact ⟨ne_of_gt hw, ne_of_gt hh⟩
  have hfit : fitToView content rect cam
      = ⟨-(rect.width / (max MIN_ZOOM (min MAX_ZOOM (min (min
              ((rect.width - 40 * 2) / content.width)
              ((rect.height - 40 * 2) / content.height)) 1))) - content.width) / 2,
         -(rect.height / (max MIN_ZOOM (min MAX_ZOOM (min (min
              ((rect.width - 40 * 2) / content.width)
              ((rect.height - 40 * 2) / content.height)) 1))) - content.height) / 2,
         max MIN_ZOOM (min MAX_ZOOM (min (min
              ((rect.width - 40 * 2) / content.width)
              ((rect.height - 40 * 2) / content.height)) 1))⟩ := by
    unfold fitToView
    rw [if_neg hcond]
  set s : ℚ := min (min ((rect.width - 40 * 2) / content.width)
      ((rect.height - 40 * 2) / content.height)) 1 with hs
  have hs1 : s ≤ 1 := min_le_right _ _
  have hz1 : max MIN_ZOOM (min MAX_ZOOM s) ≤ 1 := by
    apply max_le
    · norm_num [MIN_ZOOM]
    · exact le_trans (min_le_right _ _) hs1
  constructor
  · rw [hfit]
    exact hz1
  · intro hmin wx wy hx0 hx1 hy0 hy1
    have hzs : max MIN_ZOOM (min MAX_ZOOM s) = s := by
      rw [min_eq_right (le_trans hs1 (by norm_num [MAX_ZOOM]))]
      exact max_eq_right hmin
    have hz0 : (0 : ℚ) < s := lt_of_lt_of_le (by norm_num [MIN_ZOOM]) hmin
    have hkx : content.width * s ≤ rect.width - 80 := by
      have h1 : s ≤ (rect.width - 40 * 2) / content.width :=
        le_trans (min_le_left _ _) (min_le_left _ _)
      rw [le_div_iff₀ hw] at h1
      calc content.width * s = s * content.width := by ring
        _ ≤ rect.width - 40 * 2 := h1
        _ = rect.width - 80 := by ring
    have hky : content.height * s ≤ rect.height - 80 := by
      have h1 : s ≤ (rect.height - 40 * 2) / content.height :=
        le_trans (min_le_left _ _) (min_le_right _ _)
      rw [le_div_iff₀ hh] at h1
      calc content.height * s = s * content.height := by ring
        _ ≤ rect.height - 40 * 2 := h1
        _ = rect.height - 80 := by ring
    rw [hfit, hzs]
    have hsne : s ≠ 0 := ne_of_gt hz0
    have hX : (worldToScreen ⟨-(rect.width / s - content.width) / 2,
          -(rect.height / s - content.height) / 2, s⟩ rect wx wy).x
        = wx * s + rect.width / 2 - content.width * s / 2 + rect.left := by
      unfold worldToScreen
      field_simp
      ring
    have hY : (worldToScreen ⟨-(rect.width / s - content.width) / 2,
          -(rect.height / s - content.height) / 2, s⟩ rect wx wy).y
        = wy * s + rect.height / 2 - content.height * s / 2 + rect.top := by
      unfold worldToScreen
      field_simp
      ring
    have p1 : 0 ≤ wx * s := mul_nonneg hx0 hz0.le
    have p2 : wx * s ≤ content.width * s := mul_le_mul_of_nonneg_right hx1 hz0.le
    have q1 : 0 ≤ wy * s := mul_nonneg hy0 hz0.le
    have q2 : wy * s ≤ content.height * s := mul_le_mul_of_nonneg_right hy1 hz0.le
    refine ⟨?_, ?_, ?_, ?_⟩
    · rw [hX]; linarith
    · rw [hX]; linarith
    · rw [hY]; linarith
    · rw [hY]; linarith

/-- Witness for C2: content `100×100` in a `200×200` viewport, interior
point `(50,50)`. -/
theorem fit_to_view_containment_witness :
    (fitToView ⟨100, 100⟩ ⟨0, 0, 200, 200⟩ ⟨0, 0, 1⟩).zoom ≤ 1
    ∧ (⟨0, 0, 200, 200⟩ : Rect).left
        ≤ (worldToScreen (fitToView ⟨100, 100⟩ ⟨0, 0, 200, 200⟩ ⟨0, 0, 1⟩)
            ⟨0, 0, 200, 200⟩ 50 50).x
    ∧ (worldToScreen (fitToView ⟨100, 100⟩ ⟨0, 0, 200, 200⟩ ⟨0, 0, 1⟩)
            ⟨0, 0, 200, 200⟩ 50 50).x
        ≤ (⟨0, 0, 200, 200⟩ : Rect).left + (⟨0, 0, 200, 200⟩ : Rect).width :=
  ⟨(fit_to_view_containment ⟨0, 0, 1⟩ ⟨100, 100⟩ ⟨0, 0, 200, 200⟩
      (by norm_num) (by norm_num)).1,
   ((fit_to_view_containment ⟨0, 0, 1⟩ ⟨100, 100⟩ ⟨0, 0, 200, 200⟩
      (by norm_num) (by norm_num)).2 (by with_unfolding_all decide) 50 50
      (by norm_num) (by norm_num) (by norm_num) (by norm_num)).1,
   ((fit_to_view_containment ⟨0, 0, 1⟩ ⟨100, 100⟩ ⟨0, 0, 200, 200⟩
      (by norm_num) (by norm_num)).2 (by with_unfolding_all decide) 50 50
      (by norm_num) (by norm_num) (by norm_num) (by norm_num)).2.1⟩

/-- The fit zoom exactly as the claim words it: `min(viewportWidth /
contentWidth, viewportHeight / contentHeight, 1.0)` clamped to
`[MIN_ZOOM, MAX_ZOOM]`, with no padding term. -/
def claimedFitZoom (content : Size) (rect : Rect) : ℚ :=
  max MIN_ZOOM (min MAX_ZOOM
    (min (min (rect.width / content.width) (rect.height / content.height)) 1))

/-- C3 counterexample: for content `100×100` in a `100×100` viewport the
claimed formula gives `zoom = 1`, but `fitToView` subtracts `2*40px` of
padding before scaling and yields `zoom = 1/5`. -/
theorem fit_to_view_formula_cex :
    (fitToView ⟨100, 100⟩ ⟨0, 0, 100, 100⟩ ⟨0, 0, 1⟩).zoom
      ≠ claimedFitZoom ⟨100, 100⟩ ⟨0, 0, 100, 100⟩ := by
  with_unfolding_all decide

/-- C3 (amended fit-to-view formula): for positive content and viewport
sizes, `fitToView` sets `zoom = min((viewportWidth - 2*40) / contentWidth,
(viewportHeight - 2*40) / contentHeight, 1.0)` clamped to
`[MIN_ZOOM, MAX_ZOOM]` (the claim's formula amended by the 40px padding the
code applies on each side), and positions the camera so that the content
center maps to the viewport center — the content is centered both
horizontally and vertically at that zoom. -/
theorem fit_to_view_formula (cam : Camera) (content : Size) (rect : Rect)
    (hw : 0 < content.width) (hh : 0 < content.height) :
    (fitToView content rect cam).zoom
      = max MIN_ZOOM (min MAX_ZOOM (min (min ((rect.width - 40 * 2) / content.width)
          ((rect.height - 40 * 2) / content.height)) 1))
    ∧ worldToScreen (fitToView content rect cam) rect (content.width / 2) (content.height / 2)
      = ⟨rect.left + rect.width / 2, rect.top + rect.height / 2⟩ := by
  have hcond : ¬ (content.width = 0 ∨ content.height = 0) := by
    push_neg
    exact ⟨ne_of_gt hw, ne_of_gt hh⟩
  have hfit : fitToView content rect cam
      = ⟨-(rect.width / (max MIN_ZOOM (min MAX_ZOOM (min (min
              ((rect.width - 40 * 2) / content.width)
              ((rect.height - 40 * 2) / content.height)) 1))) - content.width) / 2,
         -(rect.height / (max MIN_ZOOM (min MAX_ZOOM (min (min
              ((rect.width - 40 * 2) / content.width)
              ((rect.height - 40 * 2) / content.height)) 1))) - content.height) / 2,
         max MIN_ZOOM (min MAX_ZOOM (min (min
              ((rect.width - 40 * 2) / content.width)
              ((rect.height - 40 * 2) / content.height)) 1))⟩ := by
    unfold fitToView
    rw [if_neg hcond]
  set s : ℚ := min (min ((rect.width - 40 * 2) / content.width)
      ((rect.height - 40 * 2) / content.height)) 1 with hs
  set z : ℚ := max MIN_ZOOM (min MAX_ZOOM s) with hzdef
  have hz0 : (0 : ℚ) < z := lt_of_lt_of_le (by norm_num [MIN_ZOOM]) (le_max_left _ _)
  have hzne : z ≠ 0 := ne_of_gt hz0
  refine ⟨by rw [hfit], ?_⟩
  rw [hfit]
  unfold worldToScreen
  simp only [Point.mk.injEq]
  constructor
  · field_simp
    ring
  · field_simp
    ring

/-- Witness for C3 at content `100×100`, viewport `100×100`. -/
theorem fit_to_view_formula_witness :
    (fitToView ⟨100, 100⟩ ⟨0, 0, 100, 100⟩ ⟨0, 0, 1⟩).zoom
      = max MIN_ZOOM (min MAX_ZOOM (min (min
          (((⟨0, 0, 100, 100⟩ : Rect).width - 40 * 2) / (⟨100, 100⟩ : Size).width)
          (((⟨0, 0, 100, 100⟩ : Rect).height - 40 * 2) / (⟨100, 100⟩ : Size).height)) 1))
    ∧ worldToScreen (fitToView ⟨100, 100⟩ ⟨0, 0, 100, 100⟩ ⟨0, 0, 1⟩) ⟨0, 0, 100, 100⟩
        ((⟨100, 100⟩ : Size).width / 2) ((⟨100, 100⟩ : Size).height / 2)
      = ⟨(⟨0, 0, 100, 100⟩ : Rect).left + (⟨0, 0, 100, 100⟩ : Rect).width / 2,
         (⟨0, 0, 100, 100⟩ : Rect).top + (⟨0, 0, 100, 100⟩ : Rect).height / 2⟩ :=
  fit_to_view_formula ⟨0, 0, 1⟩ ⟨100, 100⟩ ⟨0, 0, 100, 100⟩ (by norm_num) (by norm_num)

/-- C4 counterexample: with an empty `nodes` list, `renderFromTopology` does
not report the empty-graph ("no operators found to visualize") failure —
contrary to the claim, which also asserts that `RootNotFound` is not
reported for this input. -/
theorem empty_nodes_failure_cex :
    renderFromTopology ⟨"0", ([] : List TopoNode)⟩ ≠ RenderResult.emptyGraph := by
  with_unfolding_all decide

/-- C4 (amended): when the `nodes` list is empty the built graph object is
empty, so the root id resolves to nothing and rendering fails with the
root-not-found alert ("Could not find root node in topology"); no layout is
attempted and the empty-graph message is not shown. -/
theorem empty_nodes_failure (rid : String) :
    renderFromTopology ⟨rid, []⟩ = RenderResult.rootNotFound := rfl

/-- C7 (two-leaf layout scenario): for the JOIN-over-two-scans topology, the
layout places both leaves at the same `y`, centers the root at the midpoint
of the two leaves' `x`, and reports `contentSize.width = 2*NODE_WIDTH +
HORIZONTAL_SPACING` and `contentSize.height = NODE_HEIGHT + VERTICAL_SPACING
+ NODE_HEIGHT`. -/
theorem two_leaf_layout_scenario :
    ∃ l x1 x2 yl, renderFromTopology
        ⟨"0", [⟨"0", "JOIN", ["1", "2"]⟩, ⟨"1", "SCAN_A", []⟩, ⟨"2", "SCAN_B", []⟩]⟩
        = RenderResult.rendered l
      ∧ posLookup l.positions "1" = some (x1, yl)
      ∧ posLookup l.positions "2" = some (x2, yl)
      ∧ posLookup l.positions "0" = some ((x1 + x2) / 2, 0)
      ∧ l.width = 2 * NODE_WIDTH + HORIZONTAL_SPACING
      ∧ l.height = NODE_HEIGHT + VERTICAL_SPACING + NODE_HEIGHT := by
  refine ⟨⟨[("2", 170, 120), ("1", 0, 120), ("0", 85, 0)], 310, 170,
    ⟨"0", "JOIN", ["1", "2"]⟩⟩, 0, 170, 120, ?_⟩
  with_unfolding_all decide

/-! ## C5: zoom mutations as an operation list -/

/-- One zoom-family camera mutation, carrying the environment (content size
and canvas rect) it reads. -/
inductive ZoomOp where
  | wheel (content : Size) (rect : Rect) (clientX clientY deltaY : ℚ)
  | zoomCtr (content : Size) (rect : Rect) (delta : ℚ)
  | fit (content : Size) (rect : Rect)

/-- Apply one zoom mutation to the camera. -/
def applyOp (cam : Camera) : ZoomOp → Camera
  | ZoomOp.wheel content rect cX cY dY => wheelHandler content rect cX cY dY cam
  | ZoomOp.zoomCtr content rect d => zoomToCenter content rect d cam
  | ZoomOp.fit content rect => fitToView content rect cam

/-- Every single zoom mutation keeps the zoom inside `[MIN_ZOOM, MAX_ZOOM]`. -/
lemma applyOp_zoom_bounds (cam : Camera) (op : ZoomOp)
    (h1 : MIN_ZOOM ≤ cam.zoom) (h2 : cam.zoom ≤ MAX_ZOOM) :
    MIN_ZOOM ≤ (applyOp cam op).zoom ∧ (applyOp cam op).zoom ≤ MAX_ZOOM := by
  cases op with
  | wheel content rect cX cY dY =>
    unfold applyOp wheelHandler
    rw [clampCameraToBounds_zoom]
    exact zoom_clamp_mem _
  | zoomCtr content rect d =>
    unfold applyOp zoomToCenter
    rw [clampCameraToBounds_zoom]
    exact zoom_clamp_mem _
  | fit content rect =>
    simp only [applyOp]
    unfold fitToView
    by_cases hc : content.width = 0 ∨ content.height = 0
    · rw [if_pos hc]
      exact ⟨h1, h2⟩
    · rw [if_neg hc]
      exact zoom_clamp_mem _

/-- C5 (zoom bounds invariant): starting from any camera with zoom in
`[MIN_ZOOM, MAX_ZOOM]`, any finite sequence of wheel zooms, `zoomToCenter`
steps and `fitToView` calls keeps `MIN_ZOOM ≤ camera.zoom ≤ MAX_ZOOM`. -/
theorem zoom_bounds_invariant (ops : List ZoomOp) (cam : Camera)
    (h1 : MIN_ZOOM ≤ cam.zoom) (h2 : cam.zoom ≤ MAX_ZOOM) :
    MIN_ZOOM ≤ (ops.foldl applyOp cam).zoom ∧ (ops.foldl applyOp cam).zoom ≤ MAX_ZOOM := by
  induction ops generalizing cam with
  | nil => exact ⟨h1, h2⟩
  | cons op rest ih =>
    have h := applyOp_zoom_bounds cam op h1 h2
    simpa [List.foldl] using ih (applyOp cam op) h.1 h.2

/-- Witness for C5: a concrete three-step mutation sequence from `zoom = 1`. -/
theorem zoom_bounds_invariant_witness :
    MIN_ZOOM ≤ (([ZoomOp.wheel ⟨50, 50⟩ ⟨0, 0, 100, 100⟩ 10 10 1,
        ZoomOp.fit ⟨50, 50⟩ ⟨0, 0, 100, 100⟩,
        ZoomOp.zoomCtr ⟨50, 50⟩ ⟨0, 0, 100, 100⟩ (11/10)]).foldl applyOp ⟨0, 0, 1⟩).zoom
    ∧ (([ZoomOp.wheel ⟨50, 50⟩ ⟨0, 0, 100, 100⟩ 10 10 1,
        ZoomOp.fit ⟨50, 50⟩ ⟨0, 0, 100, 100⟩,
        ZoomOp.zoomCtr ⟨50, 50⟩ ⟨0, 0, 100, 100⟩ (11/10)]).foldl applyOp ⟨0, 0, 1⟩).zoom
      ≤ MAX_ZOOM :=
  zoom_bounds_invariant
    [ZoomOp.wheel ⟨50, 50⟩ ⟨0, 0, 100, 100⟩ 10 10 1,
     ZoomOp.fit ⟨50, 50⟩ ⟨0, 0, 100, 100⟩,
     ZoomOp.zoomCtr ⟨50, 50⟩ ⟨0, 0, 100, 100⟩ (11/10)] ⟨0, 0, 1⟩
    (by with_unfolding_all decide) (by with_unfolding_all decide)

/-- C6 (cycle-safe termination): for every finite graph — graphs with cycles
and dangling child ids included — `calculateTreeLayout` terminates (its fuel
`g.length + 1` never runs out), and every node it positions is positioned
exactly once: the resulting positions map binds pairwise-distinct ids. -/
theorem layout_cycle_safe (g : Graph) (root : PNode) (hroot : root ∈ g) :
    ∃ l, calculateTreeLayout root g = some l ∧ (l.positions.map Prod.fst).Nodup := by
  have hfuel : unvisited g [] < g.length + 1 := Nat.lt_succ_of_le (unvisited_nil_le g)
  have h1 := (calcW_some g (g.length + 1)).1 root [] [] hroot hfuel
  obtain ⟨r1, hr1⟩ := Option.isSome_iff_exists.mp h1
  obtain ⟨w, wm, vend⟩ := r1
  have h2 := (assignPos_some g wm (g.length + 1)).1 root 0 0 [] [] 0 hroot hfuel
  obtain ⟨r2, hr2⟩ := Option.isSome_iff_exists.mp h2
  obtain ⟨pos, maxY, vend2⟩ := r2
  have hprops := ((assignPos_keys g wm (g.length + 1)).1 root 0 0 [] [] 0
    (pos, maxY, vend2) hr2).2 (by intro x hx; simp [posKeys] at hx) (by simp [posKeys])
  refine ⟨⟨pos, (wLookup wm root.id).getD NODE_WIDTH, maxY + NODE_HEIGHT, root⟩, ?_, hprops.2⟩
  unfold calculateTreeLayout
  simp only [hr1, hr2]

/-- Witness for C6: a concrete graph with a two-node cycle (A → B → A) and a
dangling child id Z. -/
theorem layout_cycle_safe_witness :
    ∃ l, calculateTreeLayout ⟨"A", "X", ["B"]⟩
        [⟨"A", "X", ["B"]⟩, ⟨"B", "Y", ["A", "Z"]⟩] = some l
      ∧ (l.positions.map Prod.fst).Nodup :=
  layout_cycle_safe [⟨"A", "X", ["B"]⟩, ⟨"B", "Y", ["A", "Z"]⟩] ⟨"A", "X", ["B"]⟩
    (List.mem_cons_self _ _)

/-- C10 (pan operations preserve zoom): pointer-drag movement, `panBy`,
minimap click-to-center and `clampCameraToBounds` never modify `camera.zoom`,
for every input. -/
theorem pan_ops_preserve_zoom :
    (∀ content rect st cX cY pid cam,
        (pointermoveHandler content rect st cX cY pid cam).zoom = cam.zoom)
    ∧ (∀ content rect dx dy cam, (panBy content rect dx dy cam).zoom = cam.zoom)
    ∧ (∀ content mRect cRect cX cY cam,
        (minimapClick content mRect cRect cX cY cam).zoom = cam.zoom)
    ∧ (∀ content rect cam, (clampCameraToBounds content rect cam).zoom = cam.zoom) := by
  refine ⟨?_, ?_, ?_, ?_⟩
  · intro content rect st cX cY pid cam
    unfold pointermoveHandler
    split
    · exact clampCameraToBounds_zoom _ _ _
    · rfl
  · intro content rect dx dy cam
    exact clampCameraToBounds_zoom _ _ _
  · intro content mRect cRect cX cY cam
    exact clampCameraToBounds_zoom _ _ _
  · intro content rect cam
    exact clampCameraToBounds_zoom _ _ _

end Northstar
